import Mathlib

/-!
Verification of the pingclair reverse proxy against its specification.

This file shallowly embeds the Rust code that the checked claims are about:

* `FileServer::parse_range` (pingclair-static/src/file_server.rs),
* `LoadBalancer::select` and `Strategy` (pingclair-proxy/src/load_balancer.rs),
* `Certificate::needs_renewal` (pingclair-tls/src/acme.rs),
* `Router::path_matches`, `CompiledMatcher::compile`, `Router::evaluate_condition`
  (pingclair-core/src/server/router.rs),
* `SemanticAnalyzer::analyze` (pingclair-config/src/parser/semantic.rs),
* `CertStore` (pingclair-tls/src/cert_store.rs),
* `PingclairConnectionFilter::should_accept` (pingclair-proxy/src/connection_filter.rs).

Modelling conventions: Rust `&str` and `String` are lists of characters
(`RStr`), `u64` is `Nat` with explicit `< 2^64` bounds where the value range
matters, `i64` time arithmetic is `Int`, fallible code returns `Option` or
`Except`, and a `u64` subtraction that can underflow is modelled in an error
monad (`subU64`), since in the source an underflow is a debug-build panic.
External library state (pingora backends, compiled `regex::Regex` values,
IP networks) is abstracted by type parameters or oracle functions; nothing
the theorems say depends on the abstracted behaviour.
-/

namespace Pingclair

/-- Rust string slices are modelled as lists of characters. -/
abbrev RStr := List Char

/-- Characters of a Lean string literal, used to write Rust string literals. -/
def chars (s : String) : RStr := s.data

/-! ## Router path globs (pingclair-core/src/server/router.rs, `path_matches`)

The Rust function:
```
fn path_matches(path: &str, pattern: &str) -> bool {
    if pattern.ends_with("/*") {
        let prefix = &pattern[..pattern.len() - 2];
        path.starts_with(prefix)
    } else if pattern.ends_with("*") {
        let prefix = &pattern[..pattern.len() - 1];
        path.starts_with(prefix)
    } else {
        path == pattern
    }
}
```
-/

/-- `Router::path_matches`: glob match of a request path against a route
pattern. -/
def path_matches (path pattern : RStr) : Bool :=
  if (chars "/*").isSuffixOf pattern then
    (pattern.take (pattern.length - 2)).isPrefixOf path
  else if (chars "*").isSuffixOf pattern then
    (pattern.take (pattern.length - 1)).isPrefixOf path
  else
    path == pattern

/-- C5: the router's path glob match satisfies the three advertised cases:
pattern `/*` matches every path; pattern `/api/*` matches `/api` and every
path of the form `/api` followed by anything; pattern `/api` matches exactly
the path `/api` and nothing else. -/
theorem path_glob_match_cases :
    (∀ p : RStr, path_matches p (chars "/*") = true) ∧
    (∀ s : RStr, path_matches (chars "/api" ++ s) (chars "/api/*") = true) ∧
    (∀ p : RStr, path_matches p (chars "/api") = true ↔ p = chars "/api") := by
  refine ⟨fun p => ?_, fun s => ?_, fun p => ?_⟩
  · simp [path_matches, chars, List.isSuffixOf, List.isPrefixOf]
  · simp [path_matches, chars, List.isSuffixOf, List.isPrefixOf]
  · simp [path_matches, chars, List.isSuffixOf]

/-! ## Certificate renewal (pingclair-tls/src/acme.rs, `Certificate::needs_renewal`)

The Rust method reads the wall clock and returns
`self.expires_at - now < 30 * 24 * 60 * 60`. The clock is passed explicitly
here; `i64` epoch arithmetic is modelled on `Int` (realistic epoch values are
far from the `i64` range ends, and the boundary analysed below uses small
values only). -/

/-- `Certificate` from pingclair-tls/src/acme.rs: PEM bundle, SAN list and
expiry as epoch seconds. -/
structure Certificate where
  cert_pem : RStr
  key_pem : RStr
  domains : List RStr
  expires_at : Int
deriving DecidableEq

/-- `Certificate::needs_renewal`, with `now` (epoch seconds, the
`SystemTime::now()` reading) made an explicit argument. -/
def Certificate.needs_renewal (c : Certificate) (now : Int) : Bool :=
  decide (c.expires_at - now < 30 * 24 * 60 * 60)

/-- Concrete certificate whose expiry is exactly 30 days after epoch time 0. -/
def certThirtyDays : Certificate :=
  { cert_pem := [], key_pem := [], domains := [chars "example.com"]
    expires_at := 30 * 24 * 60 * 60 }

/-- C3 counterexample: at wall-clock time 0 this certificate has exactly 30
days left, and `needs_renewal` returns `false`, while the claim's inclusive
boundary demands `true` there. -/
theorem needs_renewal_thirty_days_cex :
    certThirtyDays.expires_at - 0 = 30 * 24 * 60 * 60 ∧
    certThirtyDays.needs_renewal 0 = false := by
  constructor
  · rfl
  · decide

/-- C3 (amended): `needs_renewal` returns `true` exactly when strictly less
than 30 days remain; the boundary is exclusive, so at exactly 30 days it
returns `false`. -/
theorem needs_renewal_strict_boundary (c : Certificate) (now : Int) :
    (c.needs_renewal now = true ↔ c.expires_at - now < 30 * 24 * 60 * 60) ∧
    (c.expires_at - now = 30 * 24 * 60 * 60 → c.needs_renewal now = false) := by
  constructor
  · simp [Certificate.needs_renewal]
  · intro h
    simp [Certificate.needs_renewal, h]

/-! ## Connection filter (pingclair-proxy/src/connection_filter.rs)

`PingclairConnectionFilter::should_accept(addr_opt)` returns `true` when the
blocked list is empty; otherwise it scans the blocked CIDRs only when a peer
address is present, rejecting on the first containing network. IP networks
and addresses are abstract types here and `IpNet::contains` (ipnet crate) is
an abstract function: the claim does not depend on their internals. -/

/-- `PingclairConnectionFilter::should_accept`. `contains` stands for
`IpNet::contains` and `addr_opt` for the optional peer IP (`SocketAddr::ip()`
drops the port, so the port is omitted from the model). -/
def should_accept {Net Ip : Type} (contains : Net → Ip → Bool)
    (blocked_cidrs : List Net) (addr_opt : Option Ip) : Bool :=
  if blocked_cidrs.isEmpty then
    true
  else
    match addr_opt with
    | some ip => if blocked_cidrs.any (fun cidr => contains cidr ip) then false else true
    | none => true

/-- C10: with no peer address available, `should_accept` returns `true` for
every blocked-CIDR list and every containment semantics; the CIDR scan only
runs when a peer address is present. -/
theorem should_accept_missing_peer {Net Ip : Type} (contains : Net → Ip → Bool)
    (blocked_cidrs : List Net) :
    should_accept contains blocked_cidrs (none : Option Ip) = true := by
  unfold should_accept
  split <;> rfl

/-! ## Load balancer (pingclair-proxy/src/load_balancer.rs)

The file declares `Strategy` with exactly two variants and a `LoadBalancer`
that wraps pingora's native round-robin balancer; `select(_key)` ignores its
key and always calls `native_load_balancer.select(b"", 256)`. The native
balancer is external, so its state and its selection function are abstract
parameters here. (The crate's own tests in lib.rs and the mapping in
server.rs use `Strategy::IpHash`, `LeastConn` and `First`, which this file
does not declare.) -/

/-- `Strategy` as declared in load_balancer.rs lines 15-22: only the
`RoundRobin` and `Random` variants exist. -/
inductive Strategy
  | RoundRobin
  | Random
deriving DecidableEq

/-- `LoadBalancer`: a wrapper around pingora's `NativeLoadBalancer<RoundRobin>`
(abstract state `N`), with the native `select(key, max_iterations)` selection
function abstracted alongside it. -/
structure LoadBalancer (U N : Type) where
  native_load_balancer : N
  nativeSelect : N → RStr → Nat → Option U

/-- `LoadBalancer::select`: the `_key` argument is ignored and the native
round-robin balancer is queried with the empty key and 256 iterations. -/
def LoadBalancer.select {U N : Type} (lb : LoadBalancer U N)
    (_key : Option RStr) : Option U :=
  lb.nativeSelect lb.native_load_balancer (chars "") 256

/-- C2: in the code, `Strategy` has no `IpHash` (nor `LeastConn`/`First`)
variant, and `LoadBalancer::select` is insensitive to its key argument, so no
key-hashed selection can occur; this contradicts the claimed IpHash
behaviour (and the crate's own tests). -/
theorem strategy_no_iphash_select_ignores_key :
    (∀ s : Strategy, s = Strategy.RoundRobin ∨ s = Strategy.Random) ∧
    (∀ (U N : Type) (lb : LoadBalancer U N) (k₁ k₂ : Option RStr),
      lb.select k₁ = lb.select k₂) := by
  constructor
  · intro s
    cases s
    · exact Or.inl rfl
    · exact Or.inr rfl
  · intro U N lb k₁ k₂
    rfl

/-! ## Matcher regex compilation (pingclair-core/src/server/router.rs)

`CompiledMatcher::compile` walks the matcher tree and, for every
`Header{Regex(p)}` / `Query{Regex(p)}` condition, calls `regex::Regex::new(p)`;
only patterns that compile are inserted in `compiled_regexes` (a map keyed by
the pattern). `Router::evaluate_condition` looks a `Regex` pattern up in that
map and returns `false` when it is absent. The regex engine is external, so
`regex::Regex::new` is an oracle `regexNew : RStr → Option (RStr → Bool)`
(`none` = the pattern is not a valid regular expression; a compiled regex is
abstracted by its `is_match` function). The map is an association list on
which insertion prepends, the lookup returning the newest binding, matching
`HashMap::insert`. -/

/-- `MatcherCondition` from pingclair-core/src/config/types.rs. -/
inductive MatcherCondition
  | Exists
  | Equals (expected : RStr)
  | Contains (substring : RStr)
  | StartsWith (pre : RStr)
  | EndsWith (suffix : RStr)
  | Regex (pattern : RStr)

/-- `Matcher` from pingclair-core/src/config/types.rs. -/
inductive Matcher
  | Path (patterns : List RStr)
  | Header (name : RStr) (condition : MatcherCondition)
  | Method (methods : List RStr)
  | Query (name : RStr) (condition : MatcherCondition)
  | Host (hosts : List RStr)
  | RemoteIp (ips : List RStr)
  | Protocol (protocols : List RStr)
  | And (left : Matcher) (right : Matcher)
  | Or (left : Matcher) (right : Matcher)
  | Not (inner : Matcher)

/-- `CompiledMatcher::collect_regexes`: recursively collect every
`Header`/`Query` regex pattern that `regex::Regex::new` accepts. -/
def collect_regexes (regexNew : RStr → Option (RStr → Bool)) :
    Matcher → List (RStr × (RStr → Bool)) → List (RStr × (RStr → Bool))
  | Matcher.Header _ condition, regexes
  | Matcher.Query _ condition, regexes =>
      match condition with
      | MatcherCondition.Regex pattern =>
          match regexNew pattern with
          | some re => (pattern, re) :: regexes
          | none => regexes
      | _ => regexes
  | Matcher.And left right, regexes =>
      collect_regexes regexNew right (collect_regexes regexNew left regexes)
  | Matcher.Or left right, regexes =>
      collect_regexes regexNew right (collect_regexes regexNew left regexes)
  | Matcher.Not inner, regexes => collect_regexes regexNew inner regexes
  | _, regexes => regexes

/-- `CompiledMatcher`: the matcher plus its precompiled regexes keyed by
pattern. -/
structure CompiledMatcher where
  matcher : Matcher
  compiled_regexes : List (RStr × (RStr → Bool))

/-- `CompiledMatcher::compile`: total, with no error path in the source
(compilation failures just leave the pattern out of the map). -/
def CompiledMatcher.compile (regexNew : RStr → Option (RStr → Bool))
    (matcher : Matcher) : CompiledMatcher :=
  { matcher := matcher
    compiled_regexes := collect_regexes regexNew matcher [] }

/-- `CompiledMatcher::get_regex`. -/
def CompiledMatcher.get_regex (c : CompiledMatcher) (pattern : RStr) :
    Option (RStr → Bool) :=
  c.compiled_regexes.lookup pattern

/-- `Router::evaluate_condition`: apply a header/query condition to an
optional request value, using the precompiled regexes. -/
def evaluate_condition (value : Option RStr) (condition : MatcherCondition)
    (compiled : CompiledMatcher) : Bool :=
  match condition with
  | MatcherCondition.Exists => value.isSome
  | MatcherCondition.Equals expected =>
      (value.map (fun v => v == expected)).getD false
  | MatcherCondition.Contains substring =>
      (value.map (fun v => decide (substring <:+: v))).getD false
  | MatcherCondition.StartsWith pre =>
      (value.map (fun v => pre.isPrefixOf v)).getD false
  | MatcherCondition.EndsWith suffix =>
      (value.map (fun v => suffix.isSuffixOf v)).getD false
  | MatcherCondition.Regex pattern =>
      match compiled.get_regex pattern with
      | some re => (value.map re).getD false
      | none => false

/-- Patterns that `regex::Regex::new` rejects never enter the accumulated
regex map, whatever matcher is compiled. -/
theorem lookup_collect_regexes_invalid (regexNew : RStr → Option (RStr → Bool))
    (p : RStr) (hp : regexNew p = none) (m : Matcher)
    (acc : List (RStr × (RStr → Bool))) :
    (collect_regexes regexNew m acc).lookup p = acc.lookup p := by
  induction m generalizing acc with
  | Header name condition =>
      cases condition <;> simp only [collect_regexes]
      case Regex q =>
        cases hq : regexNew q with
        | none => rfl
        | some re =>
            have hne : (p == q) = false := by
              cases h : (p == q) with
              | false => rfl
              | true =>
                  rw [eq_of_beq h, hq] at hp
                  exact absurd hp (by simp)
            simp [List.lookup, hne]
  | Query name condition =>
      cases condition <;> simp only [collect_regexes]
      case Regex q =>
        cases hq : regexNew q with
        | none => rfl
        | some re =>
            have hne : (p == q) = false := by
              cases h : (p == q) with
              | false => rfl
              | true =>
                  rw [eq_of_beq h, hq] at hp
                  exact absurd hp (by simp)
            simp [List.lookup, hne]
  | And left right ihl ihr => simp only [collect_regexes]; rw [ihr, ihl]
  | Or left right ihl ihr => simp only [collect_regexes]; rw [ihr, ihl]
  | Not inner ih => simpa only [collect_regexes] using ih acc
  | _ => rfl

/-- C6: when a pattern `p` is not a valid regular expression
(`regex::Regex::new` fails on it), compiling any matcher still succeeds —
`CompiledMatcher::compile` is total and keeps the matcher — and evaluating a
`Regex p` condition afterwards returns `false` for every request value. -/
theorem invalid_regex_condition_false (regexNew : RStr → Option (RStr → Bool))
    (m : Matcher) (p : RStr) (hp : regexNew p = none) (value : Option RStr) :
    (CompiledMatcher.compile regexNew m).matcher = m ∧
    evaluate_condition value (MatcherCondition.Regex p)
      (CompiledMatcher.compile regexNew m) = false := by
  refine ⟨rfl, ?_⟩
  have h : (CompiledMatcher.compile regexNew m).get_regex p = none := by
    simp only [CompiledMatcher.compile, CompiledMatcher.get_regex]
    rw [lookup_collect_regexes_invalid regexNew p hp]
    rfl
  simp [evaluate_condition, h]

/-- C6 witness: the invalid pattern `(` inside a concrete header matcher, an
oracle rejecting every pattern, and a concrete request value. -/
theorem invalid_regex_condition_false_witness :
    (CompiledMatcher.compile (fun _ => none)
        (Matcher.Header (chars "x") (MatcherCondition.Regex (chars "(")))).matcher =
      Matcher.Header (chars "x") (MatcherCondition.Regex (chars "(")) ∧
    evaluate_condition (some (chars "abc")) (MatcherCondition.Regex (chars "("))
      (CompiledMatcher.compile (fun _ => none)
        (Matcher.Header (chars "x") (MatcherCondition.Regex (chars "(")))) = false :=
  invalid_regex_condition_false (fun _ => none)
    (Matcher.Header (chars "x") (MatcherCondition.Regex (chars "(")))
    (chars "(") rfl (some (chars "abc"))

/-! ## Semantic analyzer (pingclair-config/src/parser/semantic.rs)

`SemanticAnalyzer::analyze` runs four phases: collect macro definitions
(duplicates are `DuplicateMacro`), check server names (duplicates are
`DuplicateServer`), expand macros in every server, then `validate`. Only the
shape that phase 4 inspects matters to the claim, so the typed AST is
embedded with its macro-expansion payload abstracted: `Mac`, `D`, `H`, `M`,
`L`, `G` stand for `MacroDef`, `Directive`, `Handler`, `Matcher`,
`ListenAddr` and `GlobalBlock`, and the macro-expansion bodies
(`expand_macro_call` over directives, `expand_handler` over handlers) are
function parameters — the theorems hold for every such function, in
particular the source's. The `Node<T>` wrapper (value plus source span) is
elided, spans being ignored by the analysis. Rust's in-place `for` loops
with `?` early return are rendered as structural recursions. -/

/-- `SemanticError` from semantic.rs. -/
inductive SemanticError
  | UndefinedMacro (name : RStr)
  | MacroArgCountMismatch (name : RStr) (expected got : Nat)
  | DuplicateServer (name : RStr)
  | DuplicateMacro (name : RStr)
  | InvalidConfig (message : RStr)

/-- Discriminator for the `InvalidConfig` variant. -/
def SemanticError.isInvalidConfig : SemanticError → Bool
  | SemanticError.InvalidConfig _ => true
  | _ => false

/-- `RouteArm` from parser/ast.rs: optional matcher plus handler. -/
structure RouteArm (M H : Type) where
  matcher : Option M
  handler : H

/-- `RouteBlock` from parser/ast.rs. -/
structure RouteBlock (M H : Type) where
  arms : List (RouteArm M H)

/-- `ServerBlock` from parser/ast.rs, restricted to the fields the analyzer
reads (`name`, `listen`, `routes`, `directives`). -/
structure ServerBlock (M H D L : Type) where
  name : RStr
  listen : Option L
  routes : Option (RouteBlock M H)
  directives : List D

/-- `Ast` from parser/ast.rs. -/
structure Ast (G M H D L Mac : Type) where
  global : Option G
  macros : List Mac
  servers : List (ServerBlock M H D L)

/-- Phase 1 of `analyze`: build the macro table, failing on a duplicate name
(`HashMap::contains_key` then `insert`, modelled on an association list). -/
def collectMacros {Mac : Type} (macroName : Mac → RStr) (defs : List Mac) :
    Except SemanticError (List (RStr × Mac)) :=
  defs.foldlM (fun table m =>
    if (table.lookup (macroName m)).isSome then
      Except.error (SemanticError.DuplicateMacro (macroName m))
    else
      Except.ok ((macroName m, m) :: table)) []

/-- Phase 2 of `analyze`: scan server names, failing on a duplicate. -/
def checkServerNames {M H D L : Type} (servers : List (ServerBlock M H D L)) :
    Except SemanticError (List RStr) :=
  servers.foldlM (fun seen s =>
    if seen.contains s.name then
      Except.error (SemanticError.DuplicateServer s.name)
    else
      Except.ok (s.name :: seen)) []

/-- The route-arm loop of `expand_server`: `expand_handler` on every arm's
handler, with `?` early return; matchers are untouched. -/
def expandArms {M H : Type} (expandHandler : H → Except SemanticError H) :
    List (RouteArm M H) → Except SemanticError (List (RouteArm M H))
  | [] => Except.ok []
  | arm :: rest =>
      (expandHandler arm.handler).bind (fun handler =>
        (expandArms expandHandler rest).bind (fun rest' =>
          Except.ok ({ matcher := arm.matcher, handler := handler } :: rest')))

/-- The route-block part of `expand_server`. -/
def expandRoutes {M H : Type} (expandHandler : H → Except SemanticError H) :
    Option (RouteBlock M H) → Except SemanticError (Option (RouteBlock M H))
  | none => Except.ok none
  | some rb =>
      (expandArms expandHandler rb.arms).map
        (fun arms => some ({ arms := arms } : RouteBlock M H))

/-- `SemanticAnalyzer::expand_server`: expand macro calls among the
directives, then expand every route handler. -/
def expandServer {M H D L : Type}
    (expandDirectives : List D → Except SemanticError (List D))
    (expandHandler : H → Except SemanticError H)
    (s : ServerBlock M H D L) : Except SemanticError (ServerBlock M H D L) :=
  (expandDirectives s.directives).bind (fun directives =>
    (expandRoutes expandHandler s.routes).bind (fun routes =>
      Except.ok { s with directives := directives, routes := routes }))

/-- Phase 3 of `analyze`: `expand_server` on every server, in order. -/
def expandServers {M H D L : Type}
    (expandDirectives : List D → Except SemanticError (List D))
    (expandHandler : H → Except SemanticError H) :
    List (ServerBlock M H D L) → Except SemanticError (List (ServerBlock M H D L))
  | [] => Except.ok []
  | s :: rest =>
      (expandServer expandDirectives expandHandler s).bind (fun s' =>
        (expandServers expandDirectives expandHandler rest).bind (fun rest' =>
          Except.ok (s' :: rest')))

/-- The default-arm loop of `validate`: walk the arms carrying the
`has_default` flag, failing on a second `matcher = None` arm. -/
def defaultArmScan {M H : Type} (e : SemanticError) :
    List (RouteArm M H) → Bool → Except SemanticError Bool
  | [], has_default => Except.ok has_default
  | arm :: rest, has_default =>
      if arm.matcher.isNone then
        if has_default then Except.error e
        else defaultArmScan e rest true
      else defaultArmScan e rest has_default

/-- Per-server part of `validate`: require `listen` or `routes`, then at most
one default route arm. (The global-protocol inspection in the source has an
empty body and is omitted.) -/
def validateServer {M H D L : Type} (s : ServerBlock M H D L) :
    Except SemanticError Unit :=
  if s.listen.isNone && s.routes.isNone then
    Except.error (SemanticError.InvalidConfig
      (chars "Server \'" ++ s.name ++
        chars "\' needs at least \'listen\' or \'route\' block"))
  else
    match s.routes with
    | some rb =>
        (defaultArmScan
          (SemanticError.InvalidConfig
            (chars "Server \'" ++ s.name ++ chars "\' has multiple default routes"))
          rb.arms false).map (fun _ => ())
    | none => Except.ok ()

/-- Phase 4 of `analyze`: validate every server, in order. -/
def validateServers {M H D L : Type} :
    List (ServerBlock M H D L) → Except SemanticError Unit
  | [] => Except.ok ()
  | s :: rest => (validateServer s).bind (fun _ => validateServers rest)

/-- `SemanticAnalyzer::analyze`: the four phases in order, returning the
expanded AST. -/
def analyze {G M H D L Mac : Type} (macroName : Mac → RStr)
    (expandDirectives : List (RStr × Mac) → List D → Except SemanticError (List D))
    (expandHandler : H → Except SemanticError H)
    (a : Ast G M H D L Mac) : Except SemanticError (Ast G M H D L Mac) :=
  (collectMacros macroName a.macros).bind (fun table =>
    (checkServerNames a.servers).bind (fun _ =>
      (expandServers (expandDirectives table) expandHandler a.servers).bind
        (fun servers =>
          (validateServers servers).bind (fun _ =>
            Except.ok { a with servers := servers }))))

/-- A server whose route block carries two or more default
(`matcher = None`) arms. -/
def ServerBlock.hasMultipleDefaults {M H D L : Type}
    (s : ServerBlock M H D L) : Bool :=
  match s.routes with
  | some rb => decide (1 < (rb.arms.filter (fun arm => arm.matcher.isNone)).length)
  | none => false

/-- An AST in which some server has two or more default route arms. -/
def Ast.hasDoubleDefault {G M H D L Mac : Type} (a : Ast G M H D L Mac) : Bool :=
  a.servers.any ServerBlock.hasMultipleDefaults

/-- The default-arm scan succeeds only when the arms carry at most one
default, counting the incoming flag. -/
theorem defaultArmScan_ok_count {M H : Type} (e : SemanticError)
    (arms : List (RouteArm M H)) (b b' : Bool)
    (h : defaultArmScan e arms b = Except.ok b') :
    (arms.filter (fun arm => arm.matcher.isNone)).length +
      (if b then 1 else 0) ≤ 1 := by
  induction arms generalizing b with
  | nil => cases b <;> simp
  | cons arm rest ih =>
      by_cases hm : arm.matcher.isNone = true
      · cases b with
        | true => simp [defaultArmScan, hm] at h
        | false =>
            rw [defaultArmScan, if_pos hm, if_neg (by simp)] at h
            have := ih true h
            simpa [hm, Nat.add_comm] using this
      · rw [defaultArmScan, if_neg hm] at h
        have := ih b h
        simpa [hm] using this

/-- The default-arm scan fails (with its fixed error) as soon as two defaults
are present, counting the incoming flag. -/
theorem defaultArmScan_error_of_two {M H : Type} (e : SemanticError)
    (arms : List (RouteArm M H)) (b : Bool)
    (h : 2 ≤ (arms.filter (fun arm => arm.matcher.isNone)).length +
      (if b then 1 else 0)) :
    defaultArmScan e arms b = Except.error e := by
  induction arms generalizing b with
  | nil =>
      exfalso
      cases b <;> simp at h
  | cons arm rest ih =>
      by_cases hm : arm.matcher.isNone = true
      · cases b with
        | true => simp [defaultArmScan, hm]
        | false =>
            rw [defaultArmScan, if_pos hm, if_neg (by simp)]
            exact ih true (by simpa [hm, Nat.add_comm] using h)
      · rw [defaultArmScan, if_neg hm]
        exact ih b (by simpa [hm] using h)

/-- Mapping over a successful `Except` came from a successful computation. -/
theorem except_map_ok_inv {ε α β : Type} (g : α → β) (m : Except ε α) (b : β)
    (h : m.map g = Except.ok b) : ∃ a, m = Except.ok a := by
  cases m with
  | error e => exact absurd h (by simp [Except.map])
  | ok a => exact ⟨a, rfl⟩

/-- On a server with a route block, `validateServer` is exactly the
default-arm scan. -/
theorem validateServer_eq_scan {M H D L : Type} (s : ServerBlock M H D L)
    (rb : RouteBlock M H) (hr : s.routes = some rb) :
    validateServer s =
      (defaultArmScan
        (SemanticError.InvalidConfig
          (chars "Server \'" ++ s.name ++ chars "\' has multiple default routes"))
        rb.arms false).map (fun _ => ()) := by
  unfold validateServer
  rw [hr]
  rw [if_neg (by simp)]

/-- A server accepted by `validateServer` has at most one default arm. -/
theorem validateServer_ok_no_double {M H D L : Type} (s : ServerBlock M H D L)
    (u : Unit) (h : validateServer s = Except.ok u) :
    s.hasMultipleDefaults = false := by
  cases hr : s.routes with
  | none => simp [ServerBlock.hasMultipleDefaults, hr]
  | some rb =>
      rw [validateServer_eq_scan s rb hr] at h
      rcases except_map_ok_inv _ _ _ h with ⟨b', hb⟩
      have hc := defaultArmScan_ok_count _ rb.arms false b' hb
      simp only [if_neg (by simp : ¬ false = true), Nat.add_zero] at hc
      simp only [ServerBlock.hasMultipleDefaults, hr, decide_eq_false_iff_not,
        not_lt]
      omega

/-- A server with two or more default arms is rejected by `validateServer`. -/
theorem validateServer_error_of_double {M H D L : Type} (s : ServerBlock M H D L)
    (h : s.hasMultipleDefaults = true) :
    ∃ e, validateServer s = Except.error e := by
  cases hr : s.routes with
  | none => simp [ServerBlock.hasMultipleDefaults, hr] at h
  | some rb =>
      simp only [ServerBlock.hasMultipleDefaults, hr, decide_eq_true_eq] at h
      refine ⟨SemanticError.InvalidConfig
        (chars "Server \'" ++ s.name ++ chars "\' has multiple default routes"), ?_⟩
      rw [validateServer_eq_scan s rb hr]
      rw [defaultArmScan_error_of_two _ _ false (by simpa using h)]
      rfl

/-- Handler expansion leaves every arm's matcher unchanged. -/
theorem expandArms_matchers {M H : Type}
    (expandHandler : H → Except SemanticError H)
    (arms arms' : List (RouteArm M H))
    (h : expandArms expandHandler arms = Except.ok arms') :
    arms'.map (fun arm => arm.matcher) = arms.map (fun arm => arm.matcher) := by
  induction arms generalizing arms' with
  | nil =>
      simp only [expandArms] at h
      cases h
      rfl
  | cons arm rest ih =>
      simp only [expandArms] at h
      cases hh : expandHandler arm.handler with
      | error e => rw [hh] at h; exact absurd h (by simp [Except.bind])
      | ok handler =>
          rw [hh] at h
          cases hrest : expandArms expandHandler rest with
          | error e =>
              rw [hrest] at h
              exact absurd h (by simp [Except.bind])
          | ok rest' =>
              rw [hrest] at h
              have harms : ({ matcher := arm.matcher, handler := handler } :: rest' :
                  List (RouteArm M H)) = arms' := by
                simpa [Except.bind] using h
              subst harms
              simp [ih rest' hrest]

/-- `expand_server` preserves whether a server has multiple default arms. -/
theorem expandServer_preserves_double {M H D L : Type}
    (expandDirectives : List D → Except SemanticError (List D))
    (expandHandler : H → Except SemanticError H)
    (s s' : ServerBlock M H D L)
    (h : expandServer expandDirectives expandHandler s = Except.ok s') :
    s'.hasMultipleDefaults = s.hasMultipleDefaults := by
  unfold expandServer at h
  cases hd : expandDirectives s.directives with
  | error e => rw [hd] at h; exact absurd h (by simp [Except.bind])
  | ok ds =>
      rw [hd] at h
      cases hr : s.routes with
      | none =>
          rw [hr] at h
          simp only [expandRoutes, Except.bind] at h
          cases h
          simp [ServerBlock.hasMultipleDefaults, hr]
      | some rb =>
          rw [hr] at h
          simp only [expandRoutes] at h
          cases ha : expandArms expandHandler rb.arms with
          | error e =>
              rw [ha] at h
              exact absurd h (by simp [Except.map, Except.bind])
          | ok arms' =>
              rw [ha] at h
              simp only [Except.map, Except.bind] at h
              cases h
              have hm := expandArms_matchers expandHandler rb.arms arms' ha
              simp only [ServerBlock.hasMultipleDefaults, hr]
              have hc : (arms'.filter (fun arm => arm.matcher.isNone)).length =
                  (rb.arms.filter (fun arm => arm.matcher.isNone)).length := by
                rw [← List.countP_eq_length_filter, ← List.countP_eq_length_filter]
                have h1 : List.countP (fun arm : RouteArm M H => arm.matcher.isNone) arms' =
                    List.countP (fun o : Option M => o.isNone)
                      (arms'.map (fun arm => arm.matcher)) :=
                  (List.countP_map (fun o : Option M => o.isNone)
                    (fun arm : RouteArm M H => arm.matcher) arms').symm
                have h2 : List.countP (fun arm : RouteArm M H => arm.matcher.isNone) rb.arms =
                    List.countP (fun o : Option M => o.isNone)
                      (rb.arms.map (fun arm => arm.matcher)) :=
                  (List.countP_map (fun o : Option M => o.isNone)
                    (fun arm : RouteArm M H => arm.matcher) rb.arms).symm
                rw [h1, h2, hm]
              rw [hc]

/-- Phase 3 preserves whether some server has multiple default arms. -/
theorem expandServers_preserves_double {M H D L : Type}
    (expandDirectives : List D → Except SemanticError (List D))
    (expandHandler : H → Except SemanticError H)
    (l l' : List (ServerBlock M H D L))
    (h : expandServers expandDirectives expandHandler l = Except.ok l') :
    l'.any ServerBlock.hasMultipleDefaults = l.any ServerBlock.hasMultipleDefaults := by
  induction l generalizing l' with
  | nil =>
      simp only [expandServers] at h
      cases h
      rfl
  | cons s rest ih =>
      simp only [expandServers] at h
      cases hs : expandServer expandDirectives expandHandler s with
      | error e => rw [hs] at h; exact absurd h (by simp [Except.bind])
      | ok s' =>
          rw [hs] at h
          cases hrest : expandServers expandDirectives expandHandler rest with
          | error e =>
              rw [hrest] at h
              exact absurd h (by simp [Except.bind])
          | ok rest' =>
              rw [hrest] at h
              simp only [Except.bind] at h
              cases h
              simp [List.any_cons, expandServer_preserves_double _ _ _ _ hs,
                ih rest' hrest]

/-- Successful validation means every server passed `validateServer`. -/
theorem validateServers_ok_all {M H D L : Type}
    (l : List (ServerBlock M H D L)) (h : validateServers l = Except.ok ())
    (s : ServerBlock M H D L) (hs : s ∈ l) : validateServer s = Except.ok () := by
  induction l with
  | nil => cases hs
  | cons t rest ih =>
      simp only [validateServers] at h
      cases ht : validateServer t with
      | error e => rw [ht] at h; exact absurd h (by simp [Except.bind])
      | ok u =>
          rw [ht] at h
          simp only [Except.bind] at h
          cases hs with
          | head => cases u; exact ht
          | tail _ hs => exact ih h hs

/-- Validation fails when some server fails `validateServer`. -/
theorem validateServers_error_of_mem {M H D L : Type}
    (l : List (ServerBlock M H D L)) (s : ServerBlock M H D L) (hs : s ∈ l)
    (e : SemanticError) (he : validateServer s = Except.error e) :
    ∃ e', validateServers l = Except.error e' := by
  induction l with
  | nil => cases hs
  | cons t rest ih =>
      cases hs with
      | head => exact ⟨e, by simp [validateServers, he, Except.bind]⟩
      | tail _ hs =>
          cases ht : validateServer t with
          | error e'' => exact ⟨e'', by simp [validateServers, ht, Except.bind]⟩
          | ok u =>
              rcases ih hs with ⟨e', he'⟩
              exact ⟨e', by cases u; simp [validateServers, ht, Except.bind, he']⟩

/-- C7 (amended): `SemanticAnalyzer::analyze` rejects — with some
`SemanticError`, an `InvalidConfig` when validation is reached — every AST in
which some server's route block carries two or more default
(`matcher = None`) arms, and every AST it accepts has at most one default arm
per server. The result holds for every macro-expansion behaviour
(`macroName`, `expandDirectives`, `expandHandler`), in particular the
source's. -/
theorem analyze_rejects_multiple_default_arms
    {G M H D L Mac : Type} (macroName : Mac → RStr)
    (expandDirectives : List (RStr × Mac) → List D → Except SemanticError (List D))
    (expandHandler : H → Except SemanticError H)
    (a : Ast G M H D L Mac) :
    (a.hasDoubleDefault = true →
      ∃ e, analyze macroName expandDirectives expandHandler a = Except.error e) ∧
    (∀ a', analyze macroName expandDirectives expandHandler a = Except.ok a' →
      a'.hasDoubleDefault = false) := by
  constructor
  · intro hdd
    cases h1 : collectMacros macroName a.macros with
    | error e => exact ⟨e, by unfold analyze; rw [h1]; rfl⟩
    | ok table =>
        cases h2 : checkServerNames a.servers with
        | error e =>
            exact ⟨e, by unfold analyze; rw [h1]; simp only [Except.bind]; rw [h2]⟩
        | ok seen =>
            cases h3 : expandServers (expandDirectives table) expandHandler
                a.servers with
            | error e =>
                refine ⟨e, ?_⟩
                unfold analyze
                rw [h1]; simp only [Except.bind]
                rw [h2]; simp only [Except.bind]
                rw [h3]
            | ok servers =>
                have hpres := expandServers_preserves_double _ _ _ _ h3
                rw [Ast.hasDoubleDefault] at hdd
                have hany : servers.any ServerBlock.hasMultipleDefaults = true := by
                  rw [hpres, hdd]
                rcases List.any_eq_true.mp hany with ⟨s, hsmem, hsd⟩
                rcases validateServer_error_of_double s hsd with ⟨e, he⟩
                rcases validateServers_error_of_mem servers s hsmem e he with ⟨e', he'⟩
                refine ⟨e', ?_⟩
                unfold analyze
                rw [h1]; simp only [Except.bind]
                rw [h2]; simp only [Except.bind]
                rw [h3]; simp only [Except.bind]
                rw [he']
  · intro a' h
    unfold analyze at h
    cases h1 : collectMacros macroName a.macros with
    | error e => rw [h1] at h; exact absurd h (by simp [Except.bind])
    | ok table =>
        rw [h1] at h; simp only [Except.bind] at h
        cases h2 : checkServerNames a.servers with
        | error e => rw [h2] at h; exact absurd h (by simp [Except.bind])
        | ok seen =>
            rw [h2] at h; simp only [Except.bind] at h
            cases h3 : expandServers (expandDirectives table) expandHandler
                a.servers with
            | error e => rw [h3] at h; exact absurd h (by simp [Except.bind])
            | ok servers =>
                rw [h3] at h; simp only [Except.bind] at h
                cases h4 : validateServers servers with
                | error e => rw [h4] at h; exact absurd h (by simp [Except.bind])
                | ok u =>
                    rw [h4] at h; simp only [Except.bind] at h
                    cases u
                    cases h
                    have hall : ∀ s ∈ servers,
                        ServerBlock.hasMultipleDefaults s = false := fun s hs =>
                      validateServer_ok_no_double s ()
                        (validateServers_ok_all servers h4 s hs)
                    simp only [Ast.hasDoubleDefault]
                    cases hany : servers.any ServerBlock.hasMultipleDefaults with
                    | false => rfl
                    | true =>
                        rcases List.any_eq_true.mp hany with ⟨s, hsmem, hsd⟩
                        rw [hall s hsmem] at hsd
                        cases hsd

/-- Concrete AST (all abstracted payloads instantiated at `Unit`) with two
servers both named `a`, the first of which carries two default route arms. -/
def cexAst : Ast Unit Unit Unit Unit Unit Unit :=
  { global := none
    macros := []
    servers :=
      [ { name := chars "a"
          listen := none
          routes := some
            { arms := [ { matcher := none, handler := () }
                      , { matcher := none, handler := () } ] }
          directives := [] }
      , { name := chars "a"
          listen := none
          routes := some { arms := [] }
          directives := [] } ] }

/-- C7 counterexample: `cexAst` has a server with two default arms, yet
`analyze` returns `DuplicateServer` — the duplicate-name check of phase 2
fires before route validation — which is not an `InvalidConfig` error, so
"analyze returns an InvalidConfig error for every such AST" fails here. -/
theorem analyze_double_default_cex :
    cexAst.hasDoubleDefault = true ∧
    analyze (fun _ => []) (fun _ ds => Except.ok ds) (fun h => Except.ok h) cexAst =
      Except.error (SemanticError.DuplicateServer (chars "a")) ∧
    (SemanticError.DuplicateServer (chars "a")).isInvalidConfig = false := by
  refine ⟨rfl, ?_, rfl⟩
  rfl

/-! ## Certificate store (pingclair-tls/src/cert_store.rs)

`CertStore` persists one JSON file per certificate, named after the primary
(first) SAN domain with `.` replaced by `_`, and keeps an in-memory cache
indexed by every SAN. The directory is an association list from filename to
file content; a content of `none` stands for a file whose JSON does not
parse (`load_all` skips it with a warning). serde's JSON round trip
preserves the four `CertificateData` fields, so parseable content is
modelled as the data value itself. The cache is an association list on which
insertion prepends and `List.lookup` returns the newest binding, matching
`HashMap` behaviour. -/

/-- `CertificateData`: the on-disk serialized form of a certificate. -/
structure CertificateData where
  cert_pem : RStr
  key_pem : RStr
  domains : List RStr
  expires_at : Int

/-- The data `CertStore::store` serializes for a certificate. -/
def Certificate.toData (c : Certificate) : CertificateData :=
  { cert_pem := c.cert_pem, key_pem := c.key_pem
    domains := c.domains, expires_at := c.expires_at }

/-- The directory contents: filename to file content. -/
abbrev FS := List (RStr × Option CertificateData)

/-- `tokio::fs::write`: create or overwrite the named file. -/
def fsWrite (fs : FS) (name : RStr) (content : Option CertificateData) : FS :=
  (name, content) :: fs.filter (fun entry => !(entry.1 == name))

/-- The in-memory cache: domain to certificate. -/
abbrev Cache := List (RStr × Certificate)

/-- `HashMap::insert` on the cache; the newest binding shadows older ones
under `List.lookup`. -/
def cacheInsert (cache : Cache) (domain : RStr) (cert : Certificate) : Cache :=
  (domain, cert) :: cache

/-- `CertStoreError` from cert_store.rs (the `Io` payload is dropped; the
model's file system does not fail). -/
inductive CertStoreError
  | Io
  | NotFound (domain : RStr)
  | Invalid (message : RStr)

/-- `primary_domain.replace('.', "_")`. -/
def sanitize (s : RStr) : RStr :=
  s.map (fun ch => if ch == '.' then '_' else ch)

/-- `path.extension() == Some("json")`: the name ends in `.json` and the
final dot is not the first character (a bare `.json` has no extension). -/
def hasJsonExt (name : RStr) : Bool :=
  decide (5 < name.length) && (chars ".json").isSuffixOf name

/-- One iteration of the `load_all` directory walk: a parseable `.json` file
is indexed under each of its SAN domains; anything else is skipped. -/
def hydrateFile (cache : Cache) (file : RStr × Option CertificateData) : Cache :=
  if hasJsonExt file.1 then
    match file.2 with
    | some data =>
        let cert : Certificate :=
          { cert_pem := data.cert_pem, key_pem := data.key_pem
            domains := data.domains, expires_at := data.expires_at }
        data.domains.foldl (fun cc d => cacheInsert cc d cert) cache
    | none => cache
  else cache

/-- `CertStore::load_all`: hydrate the cache from every directory entry. -/
def load_all (fs : FS) (cache : Cache) : Cache :=
  fs.foldl hydrateFile cache

/-- `CertStore::store`: fail with `Invalid` when the certificate has no
domains; otherwise serialize to the sanitized primary-domain filename and
index the certificate under every SAN. -/
def store (c : Certificate) (fs : FS) (cache : Cache) :
    Except CertStoreError (FS × Cache) :=
  match c.domains.head? with
  | none => Except.error (CertStoreError.Invalid (chars "Certificate has no domains"))
  | some primary =>
      let file_path := sanitize primary ++ chars ".json"
      let fs' := fsWrite fs file_path (some c.toData)
      let cache' := c.domains.foldl (fun cc d => cacheInsert cc d c) cache
      Except.ok (fs', cache')

/-- `CertStore::get`: pure in-memory lookup. -/
def get (cache : Cache) (domain : RStr) : Option Certificate :=
  cache.lookup domain

/-- The claim's scenario, starting from a store root that does not yet exist:
`init` (whose `create_dir_all` yields an empty directory), `store c`, then
`init` of a fresh `CertStore` over the same directory; the result is the
second store's hydrated cache. -/
def initStoreInit (c : Certificate) : Except CertStoreError Cache :=
  (store c [] (load_all [] [])).map (fun r => load_all r.1 [])

/-- Looking a domain up after inserting one certificate under a list of
domains finds that certificate exactly on those domains. -/
theorem lookup_foldl_cacheInsert (cert : Certificate) (ds : List RStr)
    (acc : Cache) (d : RStr) :
    (ds.foldl (fun cc x => cacheInsert cc x cert) acc).lookup d =
      if d ∈ ds then some cert else acc.lookup d := by
  induction ds generalizing acc with
  | nil => simp
  | cons x ds ih =>
      rw [List.foldl_cons, ih]
      by_cases hd : d ∈ ds
      · simp [hd]
      · by_cases hdx : d = x
        · subst hdx
          simp [hd, cacheInsert, List.lookup]
        · have hbx : (d == x) = false := beq_eq_false_iff_ne.mpr hdx
          simp [hd, hdx, cacheInsert, List.lookup, hbx]

/-- A list is a Boolean prefix of itself extended on the right. -/
theorem isPrefixOf_append_self {α : Type} [BEq α] [LawfulBEq α]
    (l r : List α) : l.isPrefixOf (l ++ r) = true := by
  induction l with
  | nil => simp [List.isPrefixOf]
  | cons a l ih => simp [List.isPrefixOf, ih]

/-- A list is a Boolean suffix of itself extended on the left. -/
theorem isSuffixOf_append_self {α : Type} [BEq α] [LawfulBEq α]
    (l r : List α) : l.isSuffixOf (r ++ l) = true := by
  rw [List.isSuffixOf, List.reverse_append]
  exact isPrefixOf_append_self _ _

/-- Filenames written for a nonempty primary domain carry the `json`
extension. -/
theorem hasJsonExt_sanitized (p : RStr) (hp : p ≠ []) :
    hasJsonExt (sanitize p ++ chars ".json") = true := by
  rw [hasJsonExt]
  have h1 : (5 : Nat) < (sanitize p ++ chars ".json").length := by
    rw [List.length_append]
    have h2 : 0 < (sanitize p).length := by
      rw [sanitize, List.length_map]
      exact List.length_pos.mpr hp
    have h3 : (chars ".json").length = 5 := rfl
    omega
  rw [decide_eq_true h1, isSuffixOf_append_self, Bool.and_self]

/-- C8 (amended): for a certificate whose primary (first) domain is a
nonempty string, `init → store(c) → init` over the same directory yields a
store whose `get(d)`, for each SAN `d` of `c`, returns a certificate with the
same `cert_pem`, `key_pem`, `domains` and `expires_at` — hydration re-indexes
every SAN and is idempotent. -/
theorem cert_store_init_store_init_get (c : Certificate) (p : RStr)
    (hp : c.domains.head? = some p) (hpne : p ≠ []) (d : RStr)
    (hd : d ∈ c.domains) :
    ∃ cache, initStoreInit c = Except.ok cache ∧ get cache d = some c := by
  refine ⟨load_all [(sanitize p ++ chars ".json", some c.toData)] [], ?_, ?_⟩
  · unfold initStoreInit store
    rw [hp]
    rfl
  · show get (load_all [(sanitize p ++ chars ".json", some c.toData)] []) d = some c
    simp only [load_all, List.foldl]
    rw [hydrateFile, if_pos (hasJsonExt_sanitized p hpne)]
    show get ((c.toData.domains).foldl
      (fun cc d' => cacheInsert cc d'
        { cert_pem := c.toData.cert_pem, key_pem := c.toData.key_pem
          domains := c.toData.domains, expires_at := c.toData.expires_at }) []) d
      = some c
    show get ((c.domains).foldl (fun cc d' => cacheInsert cc d' c) []) d = some c
    rw [get, lookup_foldl_cacheInsert]
    simp [hd]

/-- C8 witness: a two-SAN certificate, looked up via its second SAN after
`init → store → init`. -/
theorem cert_store_init_store_init_get_witness :
    ∃ cache,
      initStoreInit
        { cert_pem := chars "CERT", key_pem := chars "KEY"
          domains := [chars "a.com", chars "www.a.com"], expires_at := 100 } =
        Except.ok cache ∧
      get cache (chars "www.a.com") = some
        { cert_pem := chars "CERT", key_pem := chars "KEY"
          domains := [chars "a.com", chars "www.a.com"], expires_at := 100 } :=
  cert_store_init_store_init_get
    { cert_pem := chars "CERT", key_pem := chars "KEY"
      domains := [chars "a.com", chars "www.a.com"], expires_at := 100 }
    (chars "a.com") rfl (by decide) (chars "www.a.com") (by simp [chars])

/-- Certificate with a single, empty SAN domain. -/
def certEmptyDomain : Certificate :=
  { cert_pem := [], key_pem := [], domains := [[]], expires_at := 0 }

/-- C8 counterexample: with an empty primary domain the stored file is named
exactly `.json`, which `Path::extension()` does not recognise as a `json`
file, so the second `init` skips it and `get("")` misses — the claim fails
for this certificate even though it has at least one domain. -/
theorem cert_store_empty_primary_cex :
    certEmptyDomain.domains ≠ [] ∧
    initStoreInit certEmptyDomain = Except.ok [] ∧
    get [] [] = none := by
  refine ⟨by simp [certEmptyDomain], ?_, rfl⟩
  rfl

/-! ## Range header parsing (pingclair-static/src/file_server.rs, `parse_range`)

The Rust function:
```
fn parse_range(&self, header: &str, file_size: u64) -> Option<(u64, u64)> {
    if !header.starts_with("bytes=") { return None; }
    let val = &header[6..];
    let parts: Vec<&str> = val.split('-').collect();
    if parts.len() != 2 { return None; }
    let start_str = parts[0];
    let end_str = parts[1];
    let start = start_str.parse::<u64>().ok().unwrap_or(0);
    let end = if end_str.is_empty() {
        file_size - 1
    } else {
        end_str.parse::<u64>().ok().unwrap_or(file_size - 1)
    };
    if start > end || start >= file_size { return None; }
    Some((start, std::cmp::min(end, file_size - 1)))
}
```
The `u64` subtractions `file_size - 1` are modelled with `subU64` in an
`Except Unit` monad whose error is the debug-build underflow panic. Note that
`unwrap_or(file_size - 1)` evaluates its argument eagerly, so in the
non-empty-end branch the subtraction runs whether or not the parse
succeeded. -/

/-- Rust `u64` subtraction: underflow is an arithmetic-overflow program error
(a panic when debug assertions are on). -/
def subU64 (a b : Nat) : Except Unit Nat :=
  if a < b then Except.error () else Except.ok (a - b)

/-- Numeric value of a decimal digit string. -/
def decimalVal (s : RStr) : Nat :=
  s.foldl (fun acc c => 10 * acc + (c.toNat - 48)) 0

/-- `str::parse::<u64>()`: an optional leading `+`, then one or more ASCII
digits, with the value required to fit in 64 bits. -/
def parseU64 (s : RStr) : Option Nat :=
  let digits :=
    match s with
    | c :: rest => if c == '+' then rest else s
    | [] => s
  if !digits.isEmpty && digits.all Char.isDigit then
    if decimalVal digits < 2 ^ 64 then some (decimalVal digits) else none
  else none

/-- `str::split(sep)` collected into a vector of pieces. -/
def splitChar (sep : Char) : RStr → List RStr
  | [] => [[]]
  | c :: rest =>
      let r := splitChar sep rest
      if c == sep then [] :: r
      else
        match r with
        | [] => [[c]]
        | h :: t => (c :: h) :: t

/-- The body of `parse_range` after the split: exactly two parts proceed
(`parts.len() != 2` returns `None`), the rest return `None`. -/
def parseRangeParts (parts : List RStr) (file_size : Nat) :
    Except Unit (Option (Nat × Nat)) :=
  match parts with
  | [start_str, end_str] =>
      let start := (parseU64 start_str).getD 0
      (if end_str.isEmpty then subU64 file_size 1
       else (subU64 file_size 1).map
         (fun dflt => (parseU64 end_str).getD dflt)).bind
        (fun endv =>
          if start > endv ∨ start ≥ file_size then Except.ok none
          else (subU64 file_size 1).map (fun m => some (start, min endv m)))
  | _ => Except.ok none

/-- `FileServer::parse_range`. -/
def parse_range (header : RStr) (file_size : Nat) :
    Except Unit (Option (Nat × Nat)) :=
  if (chars "bytes=").isPrefixOf header then
    parseRangeParts (splitChar '-' (header.drop 6)) file_size
  else Except.ok none

/-- C9: `parse_range` is not total at `file_size = 0` — the open-ended header
`bytes=0-` reaches the default-end computation `file_size - 1`, a `u64`
underflow (debug-build panic), before the `start >= file_size` guard runs. -/
theorem parse_range_underflow_at_zero_size :
    parse_range (chars "bytes=0-") 0 = Except.error () := by
  rfl

/-- C1 counterexample: at `A = 2`, `B = 7`, `N = 5` the code returns
`Some((2, min(7, 4))) = Some((2, 4))` although `A ≤ B < N` fails (`7 < 5` is
false, the claim demands `None`): the code guards `start < N`, not
`end < N`. -/
theorem parse_range_claim_cex :
    parse_range (chars "bytes=2-7") 5 = Except.ok (some (2, 4)) ∧
    ¬ (2 ≤ 7 ∧ 7 < 5) := by
  constructor
  · rfl
  · decide

/-- A digit character is not a given non-digit character. -/
theorem beq_false_of_isDigit_ne {c x : Char} (hc : c.isDigit = true)
    (hx : x.isDigit = false) : (c == x) = false := by
  cases h : c == x with
  | false => rfl
  | true =>
      rw [eq_of_beq h] at hc
      rw [hc] at hx
      cases hx

/-- Splitting a string free of the separator yields the single piece. -/
theorem splitChar_no_sep (sep : Char) (s : RStr)
    (h : ∀ x ∈ s, (x == sep) = false) : splitChar sep s = [s] := by
  induction s with
  | nil => rfl
  | cons c rest ih =>
      rw [splitChar]
      rw [ih (fun x hx => h x (List.mem_cons_of_mem c hx))]
      rw [h c (List.mem_cons_self c rest)]
      rfl

/-- Splitting around one separator occurrence, when the left part is free of
the separator, peels the left part off. -/
theorem splitChar_append_sep (sep : Char) (sa sb : RStr)
    (h : ∀ x ∈ sa, (x == sep) = false) :
    splitChar sep (sa ++ sep :: sb) = sa :: splitChar sep sb := by
  induction sa with
  | nil =>
      rw [List.nil_append, splitChar]
      simp
  | cons c sa ih =>
      rw [List.cons_append, splitChar]
      rw [ih (fun x hx => h x (List.mem_cons_of_mem c hx))]
      rw [h c (List.mem_cons_self c sa)]
      rfl

/-- `parse::<u64>()` on a nonempty all-digit string within range yields its
decimal value. -/
theorem parseU64_digits (s : RStr) (h1 : s ≠ [])
    (h2 : s.all Char.isDigit = true) (h3 : decimalVal s < 2 ^ 64) :
    parseU64 s = some (decimalVal s) := by
  cases s with
  | nil => exact absurd rfl h1
  | cons c rest =>
      have hc : c.isDigit = true := by
        have := (List.all_eq_true.mp h2) c (List.mem_cons_self c rest)
        exact this
      have hplus : (c == '+') = false :=
        beq_false_of_isDigit_ne hc (by decide)
      simp only [parseU64, hplus, Bool.false_eq_true, if_false, List.isEmpty_cons,
        Bool.not_false, Bool.true_and, h2, if_pos h3, if_true]

/-- The header prefix `bytes=` is six characters long. -/
theorem drop6_bytes (rest : RStr) : (chars "bytes=" ++ rest).drop 6 = rest := by
  have h : (chars "bytes=").length = 6 := rfl
  rw [← h, List.drop_left]

/-- C1 (amended): for decimal `u64` values `A` and `B` (written as nonempty
digit strings `sa`, `sb`) and a file size `N ≥ 1`, `parse_range("bytes=A-B", N)`
returns `Some((A, min(B, N-1)))` if and only if `A ≤ B` and `A < N`, and
`None` otherwise — the guard compares `start`, not `end`, against the file
size, so `B ≥ N` with `A < N` still yields `Some((A, N-1))`. -/
theorem parse_range_some_iff (sa sb : RStr) (A B N : Nat)
    (ha1 : sa ≠ []) (ha2 : sa.all Char.isDigit = true)
    (ha3 : decimalVal sa = A) (ha4 : A < 2 ^ 64)
    (hb1 : sb ≠ []) (hb2 : sb.all Char.isDigit = true)
    (hb3 : decimalVal sb = B) (hb4 : B < 2 ^ 64)
    (hN : 1 ≤ N) :
    parse_range (chars "bytes=" ++ (sa ++ '-' :: sb)) N =
      Except.ok (if A ≤ B ∧ A < N then some (A, min B (N - 1)) else none) := by
  have hsa : ∀ x ∈ sa, (x == '-') = false := fun x hx =>
    beq_false_of_isDigit_ne ((List.all_eq_true.mp ha2) x hx) (by decide)
  have hsb : ∀ x ∈ sb, (x == '-') = false := fun x hx =>
    beq_false_of_isDigit_ne ((List.all_eq_true.mp hb2) x hx) (by decide)
  have hsplit : splitChar '-' (sa ++ '-' :: sb) = [sa, sb] := by
    rw [splitChar_append_sep '-' sa sb hsa, splitChar_no_sep '-' sb hsb]
  have hpa : parseU64 sa = some A := by
    rw [← ha3]
    exact parseU64_digits sa ha1 ha2 (ha3 ▸ ha4)
  have hpb : parseU64 sb = some B := by
    rw [← hb3]
    exact parseU64_digits sb hb1 hb2 (hb3 ▸ hb4)
  have hsub : subU64 N 1 = Except.ok (N - 1) := by
    rw [subU64, if_neg (by omega)]
  have hsbne : sb.isEmpty = false := by
    cases sb
    · exact absurd rfl hb1
    · rfl
  rw [parse_range, if_pos (isPrefixOf_append_self _ _), drop6_bytes, hsplit]
  simp only [parseRangeParts, hpa, hpb, hsbne, hsub, Option.getD,
    Except.map, Except.bind, Bool.false_eq_true, if_false]
  by_cases hcase : A ≤ B ∧ A < N
  · rw [if_neg (by omega : ¬ (A > B ∨ A ≥ N)), if_pos hcase]
  · rw [if_pos (by omega : A > B ∨ A ≥ N), if_neg hcase]

/-- C1 witness: `parse_range("bytes=12-200", 100) = Ok(Some((12, 99)))`,
through the amended theorem at `A = 12`, `B = 200`, `N = 100`. -/
theorem parse_range_some_iff_witness :
    parse_range (chars "bytes=" ++ (chars "12" ++ '-' :: chars "200")) 100 =
      Except.ok (if 12 ≤ 200 ∧ 12 < 100 then some (12, min 200 (100 - 1)) else none) :=
  parse_range_some_iff (chars "12") (chars "200") 12 200 100
    (by decide) (by decide) (by decide) (by decide)
    (by decide) (by decide) (by decide) (by decide)
    (by decide)

end Pingclair
